import Mathlib

/-!
Shallow embedding of the sgl library, a thin Go convenience layer over
OpenGL (go-gl) and GLFW: the input-chord matcher (chord.go), the
vertex-array/buffer bookkeeping (vao.go), driver error retrieval
(error.go) and the Selecter/Cycler utilities (utilities.go).

Conventions of the embedding:
* Go `int` values are modelled as `ℤ` (no claim here exercises 64-bit
  overflow); the `int32(...)` conversions in `Vao.count` are modelled
  explicitly by `toInt32`.
* Go integer division (which truncates toward zero) is `Int.tdiv`.
* GLFW key/mouse-button state is modelled by a `Window` record of query
  functions, and the wall clock by an integer timestamp `Window.now`;
  `time.Since(t).Seconds() < w` becomes `now - t < Wait` over ℤ.
* Calls into the C graphics driver carry no Go-visible state except the
  error queue (modelled as a list of codes for `CheckError`) and the
  issued commands (modelled as a `GlCmd` trace for `Draw`).
-/

namespace Sgl

/-! ### Constants from the go-gl / go-glfw bindings -/

/-- glfw.Press (glfw action value 1; Release = 0, Repeat = 2). -/
def glfwPress : ℤ := 1

def NO_ERROR : ℕ := 0
def INVALID_ENUM : ℕ := 0x0500
def INVALID_VALUE : ℕ := 0x0501
def INVALID_OPERATION : ℕ := 0x0502
def STACK_OVERFLOW : ℕ := 0x0503
def STACK_UNDERFLOW : ℕ := 0x0504
def OUT_OF_MEMORY : ℕ := 0x0505
def INVALID_FRAMEBUFFER_OPERATION : ℕ := 0x0506

def ARRAY_BUFFER : ℕ := 0x8892
def ELEMENT_ARRAY_BUFFER : ℕ := 0x8893

/-- sgl.StaticDraw = gl.STATIC_DRAW. -/
def StaticDraw : ℕ := 0x88E4

/-- sgl.DynamicDraw = gl.DYNAMIC_DRAW. -/
def DynamicDraw : ℕ := 0x88E8

/-- sgl.Triangles = gl.TRIANGLES. -/
def Triangles : ℕ := 0x0004

/-- sgl.Float32 = gl.FLOAT. -/
def Float32 : ℕ := 0x1406

/-- sgl.Int32 = gl.INT. -/
def Int32 : ℕ := 0x1404

/-- sgl.Uint32 = gl.UNSIGNED_INT. -/
def Uint32 : ℕ := 0x1405

/-- sgl.Int8 = gl.BYTE. -/
def Int8 : ℕ := 0x1400

/-- sgl.Uint8 = gl.UNSIGNED_BYTE. -/
def Uint8 : ℕ := 0x1401

def SizeOfByte : ℤ := 1

def SizeOfFloat : ℤ := 4 * SizeOfByte

def SizeOfInt : ℤ := 4 * SizeOfByte

/-! ### chord.go: the input-chord matcher -/

/-- The GLFW window as the chord matcher sees it: key and mouse-button
state queries plus the current time read by `time.Since`/`time.Now`. -/
structure Window where
  getKey : ℤ → ℤ
  getMouseButton : ℤ → ℤ
  now : ℤ

/-- Chord (chord.go). `Execute func()` is an opaque callback and is not
part of the matching logic, so it is omitted from the record. -/
structure Chord where
  lastPressed : ℤ
  Keys : List ℤ
  Mouse : List ℤ
  Wait : ℤ
  Stop : Bool
deriving DecidableEq

/-- Chord.Match (chord.go). Returns the Go boolean result together with
the chord state after the call (the receiver is mutated only on a
successful match, where `lastPressed` is reset to the current time).
The two Go loops that return `false` at the first unpressed key or
button compute exactly the conjunction of `List.all` tests. -/
def Chord.Match (c : Chord) (win : Window) : Bool × Chord :=
  if win.now - c.lastPressed < c.Wait then
    (false, c)
  else if (c.Keys.all fun k => win.getKey k == glfwPress) &&
      (c.Mouse.all fun m => win.getMouseButton m == glfwPress) then
    (true, { c with lastPressed := win.now })
  else
    (false, c)

/-- C1: Chord.Match implements a cooldown timer: while the elapsed time
is below `Wait` it returns false and leaves `lastPressed` unchanged;
once the cooldown has elapsed it returns true and stamps `lastPressed`
with the current time exactly when every listed key and mouse button
reads as pressed, and otherwise returns false leaving the chord
unchanged. -/
theorem chord_match_cooldown (c : Chord) (win : Window) :
    (win.now - c.lastPressed < c.Wait → c.Match win = (false, c)) ∧
    (¬ win.now - c.lastPressed < c.Wait →
      (((∀ k ∈ c.Keys, win.getKey k = glfwPress) ∧
          (∀ m ∈ c.Mouse, win.getMouseButton m = glfwPress)) →
        c.Match win = (true, { c with lastPressed := win.now })) ∧
      (¬ ((∀ k ∈ c.Keys, win.getKey k = glfwPress) ∧
          (∀ m ∈ c.Mouse, win.getMouseButton m = glfwPress)) →
        c.Match win = (false, c))) := by
  refine ⟨fun hlt => ?_, fun hge => ⟨fun hall => ?_, fun hnot => ?_⟩⟩
  · simp [Chord.Match, hlt]
  · have hk : (c.Keys.all fun k => win.getKey k == glfwPress) = true := by
      simp only [List.all_eq_true, beq_iff_eq]
      exact hall.1
    have hm : (c.Mouse.all fun m => win.getMouseButton m == glfwPress) = true := by
      simp only [List.all_eq_true, beq_iff_eq]
      exact hall.2
    simp [Chord.Match, hge, hk, hm]
  · have hb : ((c.Keys.all fun k => win.getKey k == glfwPress) &&
        (c.Mouse.all fun m => win.getMouseButton m == glfwPress)) = false := by
      by_contra hcon
      rw [Bool.not_eq_false, Bool.and_eq_true] at hcon
      refine hnot ⟨?_, ?_⟩
      · have := hcon.1
        simp only [List.all_eq_true, beq_iff_eq] at this
        exact this
      · have := hcon.2
        simp only [List.all_eq_true, beq_iff_eq] at this
        exact this
    simp [Chord.Match, hge, hb]

/-- A concrete window whose every key and button reads as pressed, at
time 10. -/
def winAllPressed : Window :=
  { getKey := fun _ => glfwPress, getMouseButton := fun _ => glfwPress, now := 10 }

/-- A concrete chord: keys A and B, wait 2, last pressed at time 3. -/
def chordW : Chord :=
  { lastPressed := 3, Keys := [65, 66], Mouse := [0], Wait := 2, Stop := false }

/-- Witness for C1: at time 10 the cooldown of `chordW` has elapsed and
all its keys read as pressed, so Match succeeds and stamps time 10. -/
theorem chord_match_cooldown_witness :
    ¬ winAllPressed.now - chordW.lastPressed < chordW.Wait ∧
    ((∀ k ∈ chordW.Keys, winAllPressed.getKey k = glfwPress) ∧
      (∀ m ∈ chordW.Mouse, winAllPressed.getMouseButton m = glfwPress)) ∧
    chordW.Match winAllPressed = (true, { chordW with lastPressed := winAllPressed.now }) :=
  ⟨by decide, ⟨by decide, by decide⟩,
    ((chord_match_cooldown chordW winAllPressed).2 (by decide)).1 ⟨by decide, by decide⟩⟩

/-- ChordSet (chord.go): a slice of Chords. -/
abbrev ChordSet := List Chord

/-- The loop body of ChordSet.Match (chord.go): scan the chords in
order, calling Chord.Match on each; stop at the first chord whose Match
returns true and report its index (the Go code returns the pointer
`&cs[i]`). The returned list is the post-call state of the slice:
Chord.Match mutates its receiver, so each visited chord is replaced by
the state Match left it in, and chords past the match are not visited. -/
def ChordSet.MatchFrom (win : Window) : List Chord → Option ℕ × List Chord
  | [] => (none, [])
  | c :: rest =>
    let r := c.Match win
    if r.1 then
      (some 0, r.2 :: rest)
    else
      let rr := ChordSet.MatchFrom win rest
      (rr.1.map fun i => i + 1, r.2 :: rr.2)

/-- ChordSet.Match (chord.go), as index of the matched chord (Go
returns `&cs[i]`, or nil when the scan finds no match). -/
def ChordSet.Match (cs : ChordSet) (win : Window) : Option ℕ × List Chord :=
  ChordSet.MatchFrom win cs

/-- A failed Chord.Match leaves the chord unchanged. -/
theorem Chord.match_fst_false (c : Chord) (win : Window)
    (h : (c.Match win).1 = false) : (c.Match win).2 = c := by
  by_cases h1 : win.now - c.lastPressed < c.Wait
  · simp [Chord.Match, h1]
  · by_cases h2 : ((c.Keys.all fun k => win.getKey k == glfwPress) &&
        (c.Mouse.all fun m => win.getMouseButton m == glfwPress)) = true
    · exfalso
      simp [Chord.Match, h1, h2] at h
    · simp [Chord.Match, h1, h2]

/-- C2: ChordSet.Match is a linear scan in index order: it reports the
smallest index whose Chord.Match returns true (all earlier chords fail
to match and, failing, are left unchanged), does not touch any chord at
a larger index, and reports none exactly when every chord in the set
fails to match. -/
theorem chordset_match_first_index (cs : ChordSet) (win : Window) :
    (ChordSet.Match cs win).2.length = cs.length ∧
    ((ChordSet.Match cs win).1 = none →
      (∀ j c, cs.get? j = some c → (c.Match win).1 = false) ∧
      (ChordSet.Match cs win).2 = cs) ∧
    (∀ i, (ChordSet.Match cs win).1 = some i →
      (∃ c, cs.get? i = some c ∧ (c.Match win).1 = true ∧
        (ChordSet.Match cs win).2.get? i = some (c.Match win).2) ∧
      (∀ j, j < i → ∀ c, cs.get? j = some c → (c.Match win).1 = false) ∧
      (∀ j, j ≠ i → (ChordSet.Match cs win).2.get? j = cs.get? j)) := by
  unfold ChordSet.Match
  induction cs with
  | nil =>
    refine ⟨rfl, fun _ => ⟨fun j c hc => by simp [List.get?] at hc, rfl⟩, fun i hi => ?_⟩
    simp [ChordSet.MatchFrom] at hi
  | cons c rest ih =>
    by_cases hfst : (c.Match win).1 = true
    · -- head matches: result is (some 0, updated head :: rest)
      refine ⟨?_, ?_, ?_⟩
      · simp [ChordSet.MatchFrom, hfst]
      · intro hnone
        simp [ChordSet.MatchFrom, hfst] at hnone
      · intro i hi
        have hi0 : i = 0 := by
          simp [ChordSet.MatchFrom, hfst] at hi
          omega
        subst hi0
        refine ⟨⟨c, rfl, hfst, ?_⟩, ?_, ?_⟩
        · simp [ChordSet.MatchFrom, hfst]
        · intro j hj
          omega
        · intro j hj
          match j with
          | 0 => exact absurd rfl hj
          | j + 1 => simp [ChordSet.MatchFrom, hfst]
    · -- head fails to match: recurse on the tail
      have hf : (c.Match win).1 = false := by
        cases h : (c.Match win).1
        · rfl
        · exact absurd h hfst
      have hc2 : (c.Match win).2 = c := Chord.match_fst_false c win hf
      obtain ⟨ihlen, ihnone, ihsome⟩ := ih
      refine ⟨?_, ?_, ?_⟩
      · simp [ChordSet.MatchFrom, hf, hc2, ihlen]
      · intro hnone
        have hrest : (ChordSet.MatchFrom win rest).1 = none := by
          simp [ChordSet.MatchFrom, hf] at hnone
          exact hnone
        obtain ⟨hall, heq⟩ := ihnone hrest
        refine ⟨fun j cj hcj => ?_, ?_⟩
        · match j with
          | 0 =>
            simp [List.get?] at hcj
            rw [← hcj]
            exact hf
          | j + 1 => exact hall j cj hcj
        · simp [ChordSet.MatchFrom, hf, hc2, heq]
      · intro i hi
        have : ∃ i', (ChordSet.MatchFrom win rest).1 = some i' ∧ i = i' + 1 := by
          simp [ChordSet.MatchFrom, hf] at hi
          cases hr : (ChordSet.MatchFrom win rest).1 with
          | none => rw [hr] at hi; simp at hi
          | some i' => rw [hr] at hi; simp at hi; exact ⟨i', rfl, hi.symm⟩
        obtain ⟨i', hr, hii⟩ := this
        subst hii
        obtain ⟨⟨cm, hcm, hcmt, hcm2⟩, hbefore, hafter⟩ := ihsome i' hr
        refine ⟨⟨cm, hcm, hcmt, ?_⟩, ?_, ?_⟩
        · simpa [ChordSet.MatchFrom, hf] using hcm2
        · intro j hj cj hcj
          match j with
          | 0 =>
            simp [List.get?] at hcj
            rw [← hcj]
            exact hf
          | j + 1 =>
            exact hbefore j (by omega) cj hcj
        · intro j hj
          match j with
          | 0 => simp [ChordSet.MatchFrom, hf, hc2]
          | j + 1 =>
            have := hafter j (by omega)
            simpa [ChordSet.MatchFrom, hf] using this

/-- A chord set where the second chord matches at `winAllPressed`
(first chord still cooling down, second chord ready). -/
def chordSetW : ChordSet :=
  [{ lastPressed := 9, Keys := [65], Mouse := [], Wait := 2, Stop := false },
   { lastPressed := 3, Keys := [66], Mouse := [], Wait := 2, Stop := false }]

/-- Witness for C2: on `chordSetW` the scan skips the cooling-down
chord at index 0 and reports index 1, leaving index 0 unchanged. -/
theorem chordset_match_first_index_witness :
    (ChordSet.Match chordSetW winAllPressed).1 = some 1 ∧
    (∃ c, chordSetW.get? 1 = some c ∧ (c.Match winAllPressed).1 = true ∧
      (ChordSet.Match chordSetW winAllPressed).2.get? 1 = some (c.Match winAllPressed).2) ∧
    (∀ j, j < 1 → ∀ c, chordSetW.get? j = some c → (c.Match winAllPressed).1 = false) ∧
    (∀ j, j ≠ 1 → (ChordSet.Match chordSetW winAllPressed).2.get? j = chordSetW.get? j) :=
  ⟨by decide, (chordset_match_first_index chordSetW winAllPressed).2.2 1 (by decide)⟩

/-- The zero value of Chord, used as the (never reached in sorting)
out-of-range default for slice indexing in the model. -/
def emptyChord : Chord :=
  { lastPressed := 0, Keys := [], Mouse := [], Wait := 0, Stop := false }

/-- The inner loop of ChordSet.Less (chord.go): scan positions of the
first key list and return true at the first position where the first
chord's key is smaller; positions where it is larger are skipped, not
reported. -/
def keysAnyLess (xs ys : List ℤ) : Bool :=
  (xs.zip ys).any fun p => decide (p.1 < p.2)

/-- ChordSet.Less (chord.go): chords with more keys sort first
(`dLen > 0`); for equal key counts the inner scan reports true if any
position has a strictly smaller key in chord i. -/
def ChordSet.Less (cs : ChordSet) (i j : ℕ) : Bool :=
  let ci := cs.getD i emptyChord
  let cj := cs.getD j emptyChord
  let dLen : ℤ := (ci.Keys.length : ℤ) - (cj.Keys.length : ℤ)
  if (dLen == 0) && keysAnyLess ci.Keys cj.Keys then true
  else decide (dLen > 0)

/-- Two chords with equally many keys on which ChordSet.Less is not
asymmetric. -/
def lessBugSet : ChordSet :=
  [{ lastPressed := 0, Keys := [1, 4], Mouse := [], Wait := 0, Stop := false },
   { lastPressed := 0, Keys := [2, 3], Mouse := [], Wait := 0, Stop := false }]

/-- C7: evaluation at the failing input. The chords at indices 0 and 1
of `lessBugSet` have equally many keys (two each), yet Less 0 1 and
Less 1 0 are both true: the inner loop returns true as soon as any
position has a smaller key, without first comparing earlier positions
for the opposite order, so the comparator is not asymmetric and
violates the strict-weak-ordering contract of sort.Sort. -/
theorem chordset_less_not_asymmetric :
    (lessBugSet.getD 0 emptyChord).Keys.length
        = (lessBugSet.getD 1 emptyChord).Keys.length ∧
    ChordSet.Less lessBugSet 0 1 = true ∧
    ChordSet.Less lessBugSet 1 0 = true := by
  decide

/-! ### vao.go: vertex-array / buffer bookkeeping -/

/-- Attribute (from the shader/attribute source file of the package).
The Go field `Type` is a reserved word in Lean and is spelled `Typ`
here. -/
structure Attribute where
  ID : ℕ
  Name : String
  Size : ℤ
  Typ : ℕ
  Stride : ℤ
  Offset : ℤ
deriving DecidableEq

/-- BytesIn (the Go switch over the attribute type constants). -/
def BytesIn (t : ℕ) : ℤ :=
  if t = Float32 then SizeOfFloat
  else if t = Int32 then SizeOfInt
  else if t = Uint32 then SizeOfInt
  else if t = Int8 then SizeOfByte
  else if t = Uint8 then SizeOfByte
  else 0

/-- Buffer (vao.go). The GL object id obtained from GenBuffers is an
opaque handle and is kept as a plain field. -/
structure Buffer where
  ID : ℕ
  Name : String
  Attributes : List Attribute
  target : ℕ
  usage : ℕ
  bytesPerItem : ℤ
  count : ℤ
  size : ℤ
deriving DecidableEq

/-- Buffer.Count (vao.go). -/
def Buffer.Count (b : Buffer) : ℤ := b.count

/-- Buffer.Size (vao.go). -/
def Buffer.Size (b : Buffer) : ℤ := b.size

/-- Buffer.Bytes (vao.go): the number of bytes in n vertices. -/
def Buffer.Bytes (b : Buffer) (n : ℤ) : ℤ := n * b.bytesPerItem

/-- Buffer.enableAttribs (vao.go): binds the buffer, enables each
attribute and accumulates `bytesPerItem += Size * BytesIn(Type)` over
the attributes (the GL calls and the CheckError print carry no Go
state). -/
def Buffer.enableAttribs (b : Buffer) : Buffer :=
  { b with
    bytesPerItem :=
      b.Attributes.foldl (fun acc a => acc + a.Size * BytesIn a.Typ) b.bytesPerItem }

/-- Buffer.Allocate (vao.go): for an element buffer first force
`bytesPerItem` to SizeOfInt, then set `size := Bytes vertexCount` and
record the usage (BufferData with a nil pointer reserves driver
memory and is not Go-visible). -/
def Buffer.Allocate (b : Buffer) (vertexCount : ℤ) (usage : ℕ) : Buffer :=
  let b1 :=
    if b.target = ELEMENT_ARRAY_BUFFER then { b with bytesPerItem := SizeOfInt } else b
  { b1 with size := b1.Bytes vertexCount, usage := usage }

/-- The reflection view Buffer.Initalize takes of its `data
interface\x7b\x7d` argument: a Go slice with an element byte size
(`reflect.Type.Elem().Size()`) and a length (`reflect.Value.Len()`). -/
structure GoSlice where
  elemSize : ℕ
  length : ℕ
deriving DecidableEq

/-- Buffer.Initalize (vao.go): for an array buffer, `size :=
len(data) * sizeof(elem)` and `count := size / bytesPerItem` (Go
integer division, which truncates toward zero); for an element buffer,
`bytesPerItem := SizeOfInt`, `count := len(data)` and `size := count *
bytesPerItem`; in either case usage defaults to StaticDraw when still
zero. The BufferData upload itself is not Go-visible. -/
def Buffer.Initalize (b : Buffer) (data : GoSlice) : Buffer :=
  let b1 :=
    if b.target = ARRAY_BUFFER then
      let dataSize : ℤ := (data.elemSize : ℤ)
      let sz : ℤ := (data.length : ℤ) * dataSize
      { b with size := sz, count := Int.tdiv sz b.bytesPerItem }
    else if b.target = ELEMENT_ARRAY_BUFFER then
      { b with
        bytesPerItem := SizeOfInt,
        count := (data.length : ℤ),
        size := (data.length : ℤ) * SizeOfInt }
    else b
  if b1.usage = 0 then { b1 with usage := StaticDraw } else b1

/-- C3: element-vs-array bookkeeping of Buffer.Initalize: on the
element-array target it sets bytesPerItem to SizeOfInt = 4, Count to
the slice length n and Size to 4*n; on the array target it sets Size
to n times the element byte size and Count to Size divided by
bytesPerItem; in both cases usage becomes StaticDraw exactly when it
was still unset (zero). -/
theorem buffer_initalize_bookkeeping (b : Buffer) (data : GoSlice) :
    (b.target = ELEMENT_ARRAY_BUFFER →
      (b.Initalize data).bytesPerItem = SizeOfInt ∧
      (b.Initalize data).Count = (data.length : ℤ) ∧
      (b.Initalize data).Size = 4 * (data.length : ℤ)) ∧
    (b.target = ARRAY_BUFFER →
      (b.Initalize data).Size = (data.length : ℤ) * (data.elemSize : ℤ) ∧
      (b.Initalize data).Count
        = Int.tdiv ((b.Initalize data).Size) ((b.Initalize data).bytesPerItem) ∧
      (b.Initalize data).bytesPerItem = b.bytesPerItem) ∧
    ((b.Initalize data).usage = if b.usage = 0 then StaticDraw else b.usage) := by
  have hne : ELEMENT_ARRAY_BUFFER ≠ ARRAY_BUFFER := by decide
  refine ⟨fun ht => ?_, fun ht => ?_, ?_⟩
  · unfold Buffer.Initalize Buffer.Count Buffer.Size
    by_cases hu : b.usage = 0 <;>
      simp [ht, hne, hu, SizeOfInt, SizeOfByte, mul_comm]
  · unfold Buffer.Initalize Buffer.Count Buffer.Size
    by_cases hu : b.usage = 0 <;> simp [ht, hu]
  · unfold Buffer.Initalize
    by_cases hu : b.usage = 0 <;>
      by_cases h1 : b.target = ARRAY_BUFFER <;>
        by_cases h2 : b.target = ELEMENT_ARRAY_BUFFER <;>
          simp [h1, h2, hu, hne]

/-- A fresh element buffer as NewEbo builds it (usage and counts at
their Go zero values). -/
def NewEbo : Buffer :=
  { ID := 0, Name := "EBO", Attributes := [], target := ELEMENT_ARRAY_BUFFER,
    usage := 0, bytesPerItem := 0, count := 0, size := 0 }

/-- A slice of three 12-byte vertices. -/
def sliceW : GoSlice := { elemSize := 12, length := 3 }

/-- Witness for C3: initialising `NewEbo` from a 3-element slice yields
bytesPerItem 4, count 3, size 12 and usage StaticDraw. -/
theorem buffer_initalize_bookkeeping_witness :
    NewEbo.target = ELEMENT_ARRAY_BUFFER ∧
    ((NewEbo.Initalize sliceW).bytesPerItem = SizeOfInt ∧
      (NewEbo.Initalize sliceW).Count = ((sliceW.length : ℤ)) ∧
      (NewEbo.Initalize sliceW).Size = 4 * ((sliceW.length : ℤ))) ∧
    ((NewEbo.Initalize sliceW).usage = if NewEbo.usage = 0 then StaticDraw else NewEbo.usage) :=
  ⟨rfl, (buffer_initalize_bookkeeping NewEbo sliceW).1 rfl,
    (buffer_initalize_bookkeeping NewEbo sliceW).2.2⟩

/-- NewVbo (vao.go): a fresh array buffer carrying its attributes;
bytesPerItem, count, size and usage start at the Go zero value, and the
GenBuffers id is opaque. -/
def NewVbo (name : String) (attribs : List Attribute) : Buffer :=
  { ID := 0, Name := name, Attributes := attribs, target := ARRAY_BUFFER,
    usage := 0, bytesPerItem := 0, count := 0, size := 0 }

/-- Vao (vao.go). The Go `map[string]*Buffer` is modelled as the
association list of (Name, Buffer) pairs in registration order. -/
structure Vao where
  ID : ℕ
  Vbo : List (String × Buffer)
  Ebo : Buffer
  DrawMode : ℕ
deriving DecidableEq

/-- NewVao (vao.go): panics (none) without VBOs; otherwise registers
each given VBO under its name, calling enableAttribs on it exactly
once, and attaches a fresh element buffer. -/
def NewVao (drawMode : ℕ) (vbos : List Buffer) : Option Vao :=
  if vbos.isEmpty then none
  else
    some
      { ID := 0,
        Vbo := vbos.map fun vbo => (vbo.Name, vbo.enableAttribs),
        Ebo := NewEbo,
        DrawMode := drawMode }

/-- Folding the per-attribute byte accumulation from `init` adds the
sum of `Size * BytesIn Typ` over the attributes. -/
theorem foldl_attrib_bytes (attribs : List Attribute) (init : ℤ) :
    attribs.foldl (fun acc a => acc + a.Size * BytesIn a.Typ) init
      = init + (attribs.map fun a => a.Size * BytesIn a.Typ).sum := by
  induction attribs generalizing init with
  | nil => simp
  | cons a as ih => simp [ih, add_assoc]

/-- C4: interleaved attribute layout tracking: a VBO built by NewVbo
from attributes and registered through NewVao (which applies
enableAttribs to it exactly once) appears in the Vao's buffer table
with bytesPerItem equal to the sum of Size * BytesIn(Type) over its
attributes, and hence Bytes n = n times that sum for every n. -/
theorem vao_tracks_interleaved_layout (drawMode : ℕ) (vbos : List Buffer)
    (name : String) (attribs : List Attribute) (v : Vao)
    (hmem : NewVbo name attribs ∈ vbos) (hv : NewVao drawMode vbos = some v) :
    (name, (NewVbo name attribs).enableAttribs) ∈ v.Vbo ∧
    ((NewVbo name attribs).enableAttribs).bytesPerItem
      = (attribs.map fun a => a.Size * BytesIn a.Typ).sum ∧
    ∀ n : ℤ, ((NewVbo name attribs).enableAttribs).Bytes n
      = n * (attribs.map fun a => a.Size * BytesIn a.Typ).sum := by
  have hbpi : ((NewVbo name attribs).enableAttribs).bytesPerItem
      = (attribs.map fun a => a.Size * BytesIn a.Typ).sum := by
    unfold Buffer.enableAttribs NewVbo
    simp [foldl_attrib_bytes]
  refine ⟨?_, hbpi, fun n => ?_⟩
  · unfold NewVao at hv
    by_cases he : vbos.isEmpty
    · simp [he] at hv
    · simp [he] at hv
      rw [← hv]
      exact List.mem_map.mpr ⟨NewVbo name attribs, hmem, rfl⟩
  · unfold Buffer.Bytes
    rw [hbpi]

/-- A single three-float position attribute. -/
def attribsW : List Attribute :=
  [{ ID := 0, Name := "position", Size := 3, Typ := Float32, Stride := 0, Offset := 0 }]

/-- A VBO list holding one buffer built from `attribsW`. -/
def vbosW : List Buffer := [NewVbo "verts" attribsW]

/-- The Vao NewVao builds from `vbosW`. -/
def vaoW : Vao :=
  { ID := 0,
    Vbo := vbosW.map fun vbo => (vbo.Name, vbo.enableAttribs),
    Ebo := NewEbo,
    DrawMode := Triangles }

/-- Witness for C4: the single 3-float attribute gives bytesPerItem
3 * 4 = 12, so five vertices span 60 bytes. -/
theorem vao_tracks_interleaved_layout_witness :
    NewVbo "verts" attribsW ∈ vbosW ∧
    NewVao Triangles vbosW = some vaoW ∧
    ("verts", (NewVbo "verts" attribsW).enableAttribs) ∈ vaoW.Vbo ∧
    ((NewVbo "verts" attribsW).enableAttribs).bytesPerItem
      = (attribsW.map fun a => a.Size * BytesIn a.Typ).sum ∧
    ((NewVbo "verts" attribsW).enableAttribs).Bytes 5
      = 5 * (attribsW.map fun a => a.Size * BytesIn a.Typ).sum := by
  have h := vao_tracks_interleaved_layout Triangles vbosW "verts" attribsW vaoW
    (by simp [vbosW]) rfl
  exact ⟨by simp [vbosW], rfl, h.1, h.2.1, h.2.2 5⟩

/-- A GL command as issued by the draw path of vao.go. -/
inductive GlCmd where
  | bindVertexArray : ℕ → GlCmd
  | drawElements : ℕ → ℤ → ℕ → ℤ → GlCmd
  | drawArrays : ℕ → ℤ → ℤ → GlCmd
deriving DecidableEq

/-- The Go `int32(...)` conversion: wrap an integer into
[-2^31, 2^31). -/
def toInt32 (n : ℤ) : ℤ := (n + 2 ^ 31) % 2 ^ 32 - 2 ^ 31

/-- Vao.count (vao.go): the element count when the EBO holds a positive
count, otherwise the count of the first VBO the map range visits (Go
map iteration order is unspecified; the model visits the association
list head), and 0 when there is no VBO. -/
def Vao.count (v : Vao) : ℤ :=
  if 0 < v.Ebo.Count then toInt32 v.Ebo.Count
  else
    match v.Vbo with
    | [] => 0
    | (_, vbo) :: _ => toInt32 vbo.Count

/-- Vao.DrawOptions (vao.go), as the trace of GL commands it issues:
bind the vertex array, then a single DrawElements when the element
buffer count is positive and a single DrawArrays otherwise, then
unbind. -/
def Vao.DrawOptions (v : Vao) (mode : ℕ) (first count : ℤ) : List GlCmd :=
  [GlCmd.bindVertexArray v.ID] ++
    (if 0 < v.Ebo.Count then [GlCmd.drawElements mode count Uint32 first]
      else [GlCmd.drawArrays mode first count]) ++
    [GlCmd.bindVertexArray 0]

/-- Vao.Draw (vao.go). -/
def Vao.Draw (v : Vao) : List GlCmd :=
  v.DrawOptions v.DrawMode 0 v.count

/-- `toInt32` is the identity on values already in int32 range. -/
theorem toInt32_eq_self (n : ℤ) (h0 : 0 ≤ n) (h1 : n < 2 ^ 31) : toInt32 n = n := by
  unfold toInt32
  omega

/-- C6: draw-call issuance delegates directly to the graphics API:
Draw() is DrawOptions(DrawMode, 0, n) with n the element buffer's
count when positive and otherwise the count of one of the Vao's VBOs
(counts assumed within int32 range, as the code converts through
int32); and DrawOptions binds the vertex array, issues exactly one
DrawElements when the element count is positive and exactly one
DrawArrays otherwise, then unbinds. -/
theorem vao_draw_delegates (v : Vao)
    (hEbo : 0 ≤ v.Ebo.Count ∧ v.Ebo.Count < 2 ^ 31)
    (hVbo : ∀ p ∈ v.Vbo, 0 ≤ p.2.Count ∧ p.2.Count < 2 ^ 31) :
    v.Draw = v.DrawOptions v.DrawMode 0 v.count ∧
    (0 < v.Ebo.Count → v.count = v.Ebo.Count) ∧
    (¬ 0 < v.Ebo.Count → v.Vbo ≠ [] → ∃ p ∈ v.Vbo, v.count = p.2.Count) ∧
    (∀ mode first count,
      (0 < v.Ebo.Count →
        v.DrawOptions mode first count
          = [GlCmd.bindVertexArray v.ID,
              GlCmd.drawElements mode count Uint32 first,
              GlCmd.bindVertexArray 0]) ∧
      (¬ 0 < v.Ebo.Count →
        v.DrawOptions mode first count
          = [GlCmd.bindVertexArray v.ID,
              GlCmd.drawArrays mode first count,
              GlCmd.bindVertexArray 0])) := by
  refine ⟨rfl, fun hpos => ?_, fun hneg hne => ?_, fun mode first count => ⟨fun hpos => ?_, fun hneg => ?_⟩⟩
  · unfold Vao.count
    rw [if_pos hpos]
    exact toInt32_eq_self _ hEbo.1 hEbo.2
  · match hv : v.Vbo with
    | [] => exact absurd hv hne
    | (nm, vbo) :: rest =>
      refine ⟨(nm, vbo), by simp [hv], ?_⟩
      unfold Vao.count
      rw [if_neg hneg, hv]
      have hmem : (nm, vbo) ∈ v.Vbo := by
        rw [hv]
        exact List.mem_cons_self _ _
      exact toInt32_eq_self _ (hVbo _ hmem).1 (hVbo _ hmem).2
  · unfold Vao.DrawOptions
    rw [if_pos hpos]
    rfl
  · unfold Vao.DrawOptions
    rw [if_neg hneg]
    rfl

/-- A Vao whose element buffer reports three indices. -/
def drawVaoW : Vao :=
  { ID := 7,
    Vbo := [("verts", NewVbo "verts" attribsW)],
    Ebo := { NewEbo with count := 3 },
    DrawMode := Triangles }

/-- Witness for C6: with a positive element count of 3, Draw issues
bind, one DrawElements of count 3, and unbind. -/
theorem vao_draw_delegates_witness :
    (0 ≤ drawVaoW.Ebo.Count ∧ drawVaoW.Ebo.Count < 2 ^ 31) ∧
    (0 < drawVaoW.Ebo.Count → drawVaoW.count = drawVaoW.Ebo.Count) ∧
    (0 < drawVaoW.Ebo.Count →
      drawVaoW.DrawOptions Triangles 0 3
        = [GlCmd.bindVertexArray drawVaoW.ID,
            GlCmd.drawElements Triangles 3 Uint32 0,
            GlCmd.bindVertexArray 0]) := by
  have h := vao_draw_delegates drawVaoW (by decide)
    (by
      intro p hp
      simp [drawVaoW] at hp
      rw [hp]
      decide)
  exact ⟨by decide, h.2.1, (h.2.2.2 Triangles 0 3).1⟩

/-! ### error.go: driver error retrieval -/

/-- GlError (error.go): `map[uint32]string`. The Go map is modelled as
an association list with unique keys; an insert removes the old
binding and appends the new one, so the list order is the order of the
latest writes (Go map iteration order is unspecified, the model fixes
this one). -/
abbrev GlError := List (ℕ × String)

/-- Assignment `err[code] = msg` on the modelled map. -/
def mapInsert (m : GlError) (code : ℕ) (msg : String) : GlError :=
  (m.filter fun p => p.1 != code) ++ [(code, msg)]

/-- Map lookup `err[code]` on the modelled map. -/
def GlError.lookup (e : GlError) (code : ℕ) : Option String :=
  (e.find? fun p => p.1 == code).map Prod.snd

/-- GlError.Error (error.go): collect the stored message strings and
join them with a comma and space. -/
def GlError.Error (e : GlError) : String :=
  String.intercalate ", " (e.map Prod.snd)

/-- The switch over error codes in CheckError (error.go); an
unrecognised code leaves `errorMsg` at the Go zero value, the empty
string. -/
def errorMsgFor (code : ℕ) : String :=
  if code = INVALID_ENUM then "INVALID_ENUM"
  else if code = INVALID_VALUE then "INVALID_VALUE"
  else if code = INVALID_OPERATION then "INVALID_OPERATION"
  else if code = STACK_OVERFLOW then "STACK_OVERFLOW"
  else if code = STACK_UNDERFLOW then "STACK_UNDERFLOW"
  else if code = OUT_OF_MEMORY then "OUT_OF_MEMORY"
  else if code = INVALID_FRAMEBUFFER_OPERATION then "INVALID_FRAMEBUFFER_OPERATION"
  else ""

/-- The retrieval loop of CheckError (error.go): successive GetError
results are modelled by a list of codes (an exhausted list stands for
GetError reporting NO_ERROR from then on); the loop inserts a name for
each code until NO_ERROR comes back. -/
def checkErrorLoop : List ℕ → GlError → GlError
  | [], errAcc => errAcc
  | code :: rest, errAcc =>
    if code = NO_ERROR then errAcc
    else checkErrorLoop rest (mapInsert errAcc code (errorMsgFor code))

/-- CheckError (error.go): nil (none) when the first GetError reports
NO_ERROR, otherwise the GlError map built by the retrieval loop. -/
def CheckError (stream : List ℕ) : Option GlError :=
  if stream.headD NO_ERROR = NO_ERROR then none
  else some (checkErrorLoop stream [])

/-- The codes the driver hands back before first reporting NO_ERROR. -/
def retrievedCodes (stream : List ℕ) : List ℕ :=
  stream.takeWhile fun c => c != NO_ERROR

/-- Searching a key `c` after filtering away key `k`: finds nothing
when `c = k`, and behaves as on the unfiltered list otherwise. -/
theorem find?_filter_ne_key (m : GlError) (k c : ℕ) :
    (m.filter fun p => p.1 != k).find? (fun p => p.1 == c)
      = if c = k then none else m.find? fun p => p.1 == c := by
  induction m with
  | nil => by_cases h : c = k <;> simp [h]
  | cons a m ih =>
    by_cases hak : a.1 = k
    · have h1 : (a.1 != k) = false := by simp [hak]
      rw [show ((a :: m).filter fun p => p.1 != k) = m.filter fun p => p.1 != k from by
        simp [List.filter_cons, h1], ih]
      by_cases hck : c = k
      · simp [hck]
      · have h2 : (a.1 == c) = false := by
          simp only [beq_eq_false_iff_ne, ne_eq]
          intro h
          exact hck (by rw [← h, hak])
        rw [if_neg hck, if_neg hck]
        simp [List.find?_cons, h2]
    · have h1 : (a.1 != k) = true := by simp [hak]
      rw [show ((a :: m).filter fun p => p.1 != k) = a :: m.filter fun p => p.1 != k from by
        simp [List.filter_cons, h1]]
      by_cases hac : (a.1 == c) = true
      · have hcne : ¬ c = k := by
          intro hck
          rw [beq_iff_eq] at hac
          exact hak (by rw [hac, hck])
        rw [if_neg hcne]
        simp [List.find?_cons, hac]
      · have hacf : (a.1 == c) = false := by
          cases h : (a.1 == c)
          · rfl
          · exact absurd h hac
        by_cases hck : c = k
        · subst hck
          simp [List.find?_cons, hacf, ih]
        · simp [List.find?_cons, hacf, ih, hck]

/-- Lookup after an insert: the inserted key now maps to the inserted
value; other keys are untouched. -/
theorem lookup_mapInsert (m : GlError) (k : ℕ) (v : String) (c : ℕ) :
    GlError.lookup (mapInsert m k v) c
      = if c = k then some v else GlError.lookup m c := by
  unfold GlError.lookup mapInsert
  rw [List.find?_append, find?_filter_ne_key]
  by_cases hck : c = k
  · have hkc : (k == c) = true := by simp [hck]
    rw [if_pos hck, if_pos hck]
    simp [List.find?_cons, hkc]
  · have hkc : (k == c) = false := by
      simp only [beq_eq_false_iff_ne, ne_eq]
      exact fun h => hck h.symm
    rw [if_neg hck, if_neg hck]
    simp [List.find?_cons, hkc]

/-- Every code retrieved before NO_ERROR ends up bound to its message
in the loop result, as does any binding of that shape already in the
accumulator. -/
theorem checkErrorLoop_lookup (stream : List ℕ) :
    ∀ errAcc c,
      (c ∈ retrievedCodes stream ∨ GlError.lookup errAcc c = some (errorMsgFor c)) →
      GlError.lookup (checkErrorLoop stream errAcc) c = some (errorMsgFor c) := by
  induction stream with
  | nil =>
    intro errAcc c h
    rcases h with h | h
    · simp [retrievedCodes] at h
    · exact h
  | cons code rest ih =>
    intro errAcc c h
    by_cases hz : code = NO_ERROR
    · have hbne : (code != NO_ERROR) = false := by simp [hz]
      have hcodes : retrievedCodes (code :: rest) = [] := by
        simp [retrievedCodes, List.takeWhile, hbne]
      rcases h with h | h
      · rw [hcodes] at h
        simp at h
      · simpa [checkErrorLoop, hz] using h
    · have hbne : (code != NO_ERROR) = true := by simp [hz]
      have hcodes : retrievedCodes (code :: rest) = code :: retrievedCodes rest := by
        simp [retrievedCodes, List.takeWhile, hbne]
      rw [show checkErrorLoop (code :: rest) errAcc
          = checkErrorLoop rest (mapInsert errAcc code (errorMsgFor code)) from by
        simp [checkErrorLoop, hz]]
      apply ih
      by_cases hcc : c = code
      · right
        rw [lookup_mapInsert, if_pos hcc, hcc]
      · rcases h with h | h
        · rw [hcodes] at h
          rcases List.mem_cons.mp h with h | h
          · exact absurd h hcc
          · exact Or.inl h
        · right
          rw [lookup_mapInsert, if_neg hcc]
          exact h

/-- C5: CheckError returns nil exactly when the first GetError query
reports NO_ERROR; otherwise it returns a GlError map binding every
code retrieved before NO_ERROR to its name string, where the switch
names the seven GL error codes; and GlError.Error is the
comma-separated join of the stored strings. -/
theorem checkerror_surfaces_codes (stream : List ℕ) :
    (CheckError stream = none ↔ stream.headD NO_ERROR = NO_ERROR) ∧
    (∀ e, CheckError stream = some e →
      (∀ c ∈ retrievedCodes stream, GlError.lookup e c = some (errorMsgFor c)) ∧
      GlError.Error e = String.intercalate ", " (e.map Prod.snd)) ∧
    errorMsgFor INVALID_ENUM = "INVALID_ENUM" ∧
    errorMsgFor INVALID_VALUE = "INVALID_VALUE" ∧
    errorMsgFor INVALID_OPERATION = "INVALID_OPERATION" ∧
    errorMsgFor STACK_OVERFLOW = "STACK_OVERFLOW" ∧
    errorMsgFor STACK_UNDERFLOW = "STACK_UNDERFLOW" ∧
    errorMsgFor OUT_OF_MEMORY = "OUT_OF_MEMORY" ∧
    errorMsgFor INVALID_FRAMEBUFFER_OPERATION = "INVALID_FRAMEBUFFER_OPERATION" := by
  refine ⟨?_, ?_, rfl, rfl, rfl, rfl, rfl, rfl, rfl⟩
  · unfold CheckError
    by_cases h : stream.headD NO_ERROR = NO_ERROR <;> simp [h]
  · intro e he
    unfold CheckError at he
    by_cases h : stream.headD NO_ERROR = NO_ERROR
    · rw [if_pos h] at he
      exact Option.noConfusion he
    · rw [if_neg h, Option.some_inj] at he
      refine ⟨fun c hc => ?_, rfl⟩
      rw [← he]
      exact checkErrorLoop_lookup stream [] c (Or.inl hc)

/-- Witness for C5: a driver stream reporting INVALID_ENUM then
NO_ERROR yields a one-entry map binding 0x0500 to its name, whose
Error string is that name. -/
theorem checkerror_surfaces_codes_witness :
    CheckError [INVALID_ENUM, NO_ERROR] = some [(INVALID_ENUM, "INVALID_ENUM")] ∧
    GlError.lookup [(INVALID_ENUM, "INVALID_ENUM")] INVALID_ENUM
      = some (errorMsgFor INVALID_ENUM) ∧
    GlError.Error [(INVALID_ENUM, "INVALID_ENUM")] = "INVALID_ENUM" := by
  refine ⟨by decide, ?_, by decide⟩
  exact ((checkerror_surfaces_codes [INVALID_ENUM, NO_ERROR]).2.1
    [(INVALID_ENUM, "INVALID_ENUM")] (by decide)).1 INVALID_ENUM (by decide)

/-! ### utilities.go: Selecter and Cycler -/

/-- Selecter (utilities.go). `Things []interface\x7b\x7d` holds
arbitrary values, modelled by a type parameter. -/
structure Selecter (α : Type) where
  Title : String
  Current : ℤ
  Things : List α
  Names : List String

/-- Selecter.Set (utilities.go): clamp the index from above to
len(Things)-1, then from below to 0, and store it. -/
def Selecter.Set {α : Type} (s : Selecter α) (index : ℤ) : Selecter α :=
  let i1 := if (s.Things.length : ℤ) ≤ index then (s.Things.length : ℤ) - 1 else index
  let i2 := if i1 < 0 then 0 else i1
  { s with Current := i2 }

/-- Selecter.Get (utilities.go): the selecteritem at index Current of
Things and Names; the Go code indexes both slices and would panic out
of bounds, modelled by none. -/
def Selecter.Get {α : Type} (s : Selecter α) : Option (α × String) :=
  if s.Current < 0 then none
  else
    match s.Things.get? s.Current.toNat, s.Names.get? s.Current.toNat with
    | some t, some n => some (t, n)
    | _, _ => none

/-- C8: Selecter.Set clamps: on a non-empty Things, Set stores the
index itself when in range, len-1 when the index is at least len, and
0 when negative; afterwards Current always lies in [0, len), so the
Things access of Get is in bounds (and Get succeeds whenever Names
runs parallel to Things, as NewSelecter builds it). -/
theorem selecter_set_clamps {α : Type} (s : Selecter α) (index : ℤ)
    (hne : s.Things ≠ []) :
    ((0 ≤ index ∧ index < (s.Things.length : ℤ)) → (s.Set index).Current = index) ∧
    ((s.Things.length : ℤ) ≤ index →
      (s.Set index).Current = (s.Things.length : ℤ) - 1) ∧
    (index < 0 → (s.Set index).Current = 0) ∧
    (0 ≤ (s.Set index).Current ∧ (s.Set index).Current < (s.Things.length : ℤ)) ∧
    ((s.Set index).Things.get? (s.Set index).Current.toNat).isSome = true ∧
    (s.Names.length = s.Things.length → ((s.Set index).Get).isSome = true) := by
  have hlen : 0 < s.Things.length := List.length_pos.mpr hne
  have hcur : (s.Set index).Current
      = if (s.Things.length : ℤ) ≤ index then (s.Things.length : ℤ) - 1
        else if index < 0 then 0 else index := by
    simp only [Selecter.Set]
    by_cases h1 : (s.Things.length : ℤ) ≤ index
    · have h2 : ¬ ((s.Things.length : ℤ) - 1 < 0) := by omega
      simp [h1, h2]
    · simp [h1]
  have hthings : (s.Set index).Things = s.Things := rfl
  have hnames : (s.Set index).Names = s.Names := rfl
  have hbounds : 0 ≤ (s.Set index).Current ∧
      (s.Set index).Current < (s.Things.length : ℤ) := by
    rw [hcur]
    by_cases h1 : (s.Things.length : ℤ) ≤ index <;>
      by_cases h2 : index < 0 <;>
        simp [h1, h2] <;> omega
  have hgetsome : ((s.Set index).Things.get? (s.Set index).Current.toNat).isSome = true := by
    rw [hthings]
    have hh : (s.Set index).Current.toNat < s.Things.length := by omega
    simp [List.get?_eq_getElem?, hh]
  refine ⟨fun hin => ?_, fun hge => ?_, fun hneg => ?_, hbounds, hgetsome, fun hlens => ?_⟩
  · rw [hcur, if_neg (by omega), if_neg (by omega)]
  · rw [hcur, if_pos hge]
  · rw [hcur, if_neg (by omega), if_pos hneg]
  · unfold Selecter.Get
    rw [if_neg (by omega)]
    have ht : ((s.Set index).Things.get? (s.Set index).Current.toNat).isSome = true :=
      hgetsome
    have hn : ((s.Set index).Names.get? (s.Set index).Current.toNat).isSome = true := by
      rw [hnames]
      have hh : (s.Set index).Current.toNat < s.Names.length := by omega
      simp [List.get?_eq_getElem?, hh]
    obtain ⟨t, hts⟩ := Option.isSome_iff_exists.mp ht
    obtain ⟨n, hns⟩ := Option.isSome_iff_exists.mp hn
    rw [hts, hns]
    rfl

/-- A three-item Selecter over ℕ. -/
def selW : Selecter ℕ :=
  { Title := "sel", Current := 0, Things := [10, 20, 30], Names := ["a", "b", "c"] }

/-- Witness for C8: setting index 7 on a three-item Selecter clamps
Current to 2 and Get succeeds. -/
theorem selecter_set_clamps_witness :
    selW.Things ≠ [] ∧
    ((selW.Things.length : ℤ) ≤ 7 → (selW.Set 7).Current = (selW.Things.length : ℤ) - 1) ∧
    (0 ≤ (selW.Set 7).Current ∧ (selW.Set 7).Current < (selW.Things.length : ℤ)) ∧
    (selW.Names.length = selW.Things.length → ((selW.Set 7).Get).isSome = true) :=
  ⟨by decide,
    (selecter_set_clamps selW 7 (by decide)).2.1,
    (selecter_set_clamps selW 7 (by decide)).2.2.2.1,
    (selecter_set_clamps selW 7 (by decide)).2.2.2.2.2⟩

/-- Cycler (utilities.go). -/
structure Cycler (α : Type) where
  Title : String
  Current : ℤ
  Things : List α

/-- Cycler.Next (utilities.go): increment Current and wrap to 0 when
it reaches len(Things). -/
def Cycler.Next {α : Type} (c : Cycler α) : Cycler α :=
  let cur := c.Current + 1
  if cur = (c.Things.length : ℤ) then { c with Current := 0 }
  else { c with Current := cur }

/-- Cycler.Previous (utilities.go): decrement Current and wrap to
len(Things)-1 when it reaches -1. -/
def Cycler.Previous {α : Type} (c : Cycler α) : Cycler α :=
  let cur := c.Current - 1
  if cur = -1 then { c with Current := (c.Things.length : ℤ) - 1 }
  else { c with Current := cur }

/-- Next leaves Things unchanged. -/
theorem cycler_next_things {α : Type} (c : Cycler α) : c.Next.Things = c.Things := by
  unfold Cycler.Next
  by_cases h : c.Current + 1 = (c.Things.length : ℤ) <;> simp [h]

/-- Previous leaves Things unchanged. -/
theorem cycler_previous_things {α : Type} (c : Cycler α) :
    c.Previous.Things = c.Things := by
  unfold Cycler.Previous
  by_cases h : c.Current - 1 = -1 <;> simp [h]

/-- C9: on a non-empty Things with Current in range, Next and Previous
are mutually inverse wrap-around steps, and each single step keeps
Current within [0, len(Things)-1]. -/
theorem cycler_next_previous_inverse {α : Type} (c : Cycler α)
    (hne : c.Things ≠ []) (hlo : 0 ≤ c.Current)
    (hhi : c.Current < (c.Things.length : ℤ)) :
    c.Next.Previous.Current = c.Current ∧
    c.Previous.Next.Current = c.Current ∧
    (0 ≤ c.Next.Current ∧ c.Next.Current ≤ (c.Things.length : ℤ) - 1) ∧
    (0 ≤ c.Previous.Current ∧ c.Previous.Current ≤ (c.Things.length : ℤ) - 1) := by
  have hlen : 0 < c.Things.length := List.length_pos.mpr hne
  have hnext : c.Next.Current
      = if c.Current + 1 = (c.Things.length : ℤ) then 0 else c.Current + 1 := by
    unfold Cycler.Next
    by_cases h : c.Current + 1 = (c.Things.length : ℤ) <;> simp [h]
  have hprev : c.Previous.Current
      = if c.Current - 1 = -1 then (c.Things.length : ℤ) - 1 else c.Current - 1 := by
    unfold Cycler.Previous
    by_cases h : c.Current - 1 = -1 <;> simp [h]
  have hnextprev : c.Next.Previous.Current
      = if c.Next.Current - 1 = -1 then (c.Next.Things.length : ℤ) - 1
        else c.Next.Current - 1 := by
    unfold Cycler.Previous
    by_cases h : c.Next.Current - 1 = -1 <;> simp [h]
  have hprevnext : c.Previous.Next.Current
      = if c.Previous.Current + 1 = (c.Previous.Things.length : ℤ) then 0
        else c.Previous.Current + 1 := by
    unfold Cycler.Next
    by_cases h : c.Previous.Current + 1 = (c.Previous.Things.length : ℤ) <;> simp [h]
  rw [cycler_next_things] at hnextprev
  rw [cycler_previous_things] at hprevnext
  refine ⟨?_, ?_, ?_, ?_⟩
  · rw [hnextprev, hnext]
    by_cases h : c.Current + 1 = (c.Things.length : ℤ) <;> simp [h] <;> omega
  · rw [hprevnext, hprev]
    by_cases h : c.Current - 1 = -1 <;> simp [h] <;> omega
  · rw [hnext]
    by_cases h : c.Current + 1 = (c.Things.length : ℤ) <;> simp [h] <;> omega
  · rw [hprev]
    by_cases h : c.Current - 1 = -1 <;> simp [h] <;> omega

/-- A three-item Cycler over ℕ sitting at its last index. -/
def cycW : Cycler ℕ := { Title := "cyc", Current := 2, Things := [10, 20, 30] }

/-- Witness for C9: from index 2 of three items, Next wraps to 0,
Previous returns to 2, and both composites restore Current. -/
theorem cycler_next_previous_inverse_witness :
    cycW.Things ≠ [] ∧ 0 ≤ cycW.Current ∧ cycW.Current < (cycW.Things.length : ℤ) ∧
    cycW.Next.Previous.Current = cycW.Current ∧
    cycW.Previous.Next.Current = cycW.Current ∧
    (0 ≤ cycW.Next.Current ∧ cycW.Next.Current ≤ (cycW.Things.length : ℤ) - 1) :=
  ⟨by decide, by decide, by decide,
    (cycler_next_previous_inverse cycW (by decide) (by decide) (by decide)).1,
    (cycler_next_previous_inverse cycW (by decide) (by decide) (by decide)).2.1,
    (cycler_next_previous_inverse cycW (by decide) (by decide) (by decide)).2.2.1⟩

end Sgl
